import Mathlib

/-!
Verification of the Postgres migration dialect (`dialect/sql/schema/postgres.go`).

Go strings are modelled as `List Char` (all strings handled by the code are ASCII,
so byte positions and rune positions coincide).  Each Go helper from the standard
library (`strings.TrimPrefix`, `strings.Split`, ...) is re-implemented with the
documented Go semantics.  Fallible Go code (`error` returns) becomes `Except`,
and a Go `panic` becomes `Option.none`.
-/

namespace Ent

/-- Go strings, modelled as lists of characters. -/
abbrev Str := List Char

/-- The single-quote character, used by Postgres default-literal quoting. -/
def quoteChar : Char := Char.ofNat 39

/-- Go `strings.HasPrefix s pre`. -/
def goHasPre (s pre : Str) : Bool := decide (pre <+: s)

/-- Go `strings.HasSuffix s suff`. -/
def goHasSuff (s suff : Str) : Bool := decide (suff <:+ s)

/-- Go `strings.Contains s sub`. -/
def goContains (s sub : Str) : Bool := decide (sub <:+: s)

/-- Go `strings.TrimPrefix s pre`: drops `pre` from the front when present. -/
def goTrimPre (s pre : Str) : Str := if goHasPre s pre then s.drop pre.length else s

/-- Go `strings.TrimSuffix s suff`: drops `suff` from the end when present. -/
def goTrimSuff (s suff : Str) : Str :=
  if goHasSuff s suff then s.take (s.length - suff.length) else s

/-- Go `strings.Join parts sep`. -/
def goJoin (parts : List Str) (sep : Str) : Str :=
  match parts with
  | [] => []
  | p :: ps => ps.foldl (fun acc q => acc ++ sep ++ q) p

/-- The first component of Go `strings.Split s sep` (for non-empty `sep`):
the prefix of `s` before the first occurrence of `sep`, or `s` itself when
`sep` does not occur.  The source only ever uses `parts[0]` of this split. -/
def splitHead (sep : Str) : Str → Str
  | [] => []
  | c :: cs => if goHasPre (c :: cs) sep then [] else c :: splitHead sep cs

/-- Go `strings.Split s sep` for a single-character separator `sep`. -/
def splitCh (sep : Char) : Str → List Str
  | [] => [[]]
  | c :: cs =>
    match splitCh sep cs with
    | [] => [[]]
    | p :: ps => if c = sep then [] :: p :: ps else (c :: p) :: ps

/-- Go `strings.Trim s cutset` for the one-character cutset:
removes all leading and trailing occurrences of `c`. -/
def goTrimCh (c : Char) (s : Str) : Str :=
  ((s.dropWhile (fun x => x = c)).reverse.dropWhile (fun x => x = c)).reverse

/-- Go `strings.ReplaceAll s old new` for a one-character `old`. -/
def goReplaceAllCh (old : Char) (new : Str) : Str → Str
  | [] => []
  | c :: cs => (if c = old then new else [c]) ++ goReplaceAllCh old new cs

/-- Decimal digits of a natural number (Go `fmt` `%d` / `strconv` rendering). -/
def natStr (n : Nat) : Str := (toString n).toList

/-- Go `fmt` `%d` rendering of a (signed) integer. -/
def intStr (i : Int) : Str := (toString i).toList

/-- Numeric value of a digit string (the semantics of Go `strconv.Atoi`
on a string of decimal digits). -/
def digitsToNat (s : Str) : Nat := s.foldl (fun n c => 10 * n + (c.toNat - 48)) 0

/-- Go `strconv.Atoi` restricted to the inputs that occur here: succeeds
exactly on non-empty all-digit strings. -/
def parseDigits (s : Str) : Option Nat :=
  if s ≠ [] ∧ s.all Char.isDigit then some (digitsToNat s) else none

/-! ## The schema data model (`dialect/sql/schema/schema.go`, types used by `postgres.go`) -/

/-- The semantic column types of the `schema/field` package (`field.Type`).
`invalid` is the zero value (`field.TypeInvalid`), left on a column whose
catalog data type matches none of `scanColumn`'s cases. -/
inductive FieldType where
  | invalid
  | bool
  | time
  | json
  | uuid
  | bytes
  | enum
  | string
  | other
  | int8
  | int16
  | int32
  | int64
  | int
  | uint8
  | uint16
  | uint32
  | uint64
  | uint
  | float32
  | float64
deriving DecidableEq

/-- Modelled from the spec: `field.Type.Numeric` (package `schema/field`, not under
`src/`) reports the "purely numeric types": the signed and unsigned integers and
the floating-point types. -/
def FieldType.Numeric : FieldType → Bool
  | .int8 | .int16 | .int32 | .int64 | .int => true
  | .uint8 | .uint16 | .uint32 | .uint64 | .uint => true
  | .float32 | .float64 => true
  | _ => false

/-- A Go `interface{}` default value as stored in `Column.Default`:
the dynamic types that the code inspects. -/
inductive GoVal where
  | bool (b : Bool)
  | str (s : Str)
  | int (i : Int)
deriving DecidableEq

/-- Go `fmt.Sprint` on the dynamic values of `GoVal`. -/
def sprint : GoVal → Str
  | .bool b => if b then "true".toList else "false".toList
  | .str s => s
  | .int i => intStr i

/-- The `Column` model: the fields of `schema.Column` read or written by
`postgres.go`.  `typ` is the raw native/catalog type string (`c.typ`),
`type` the semantic type, `schemaType` the Postgres entry of the per-dialect
`SchemaType` override map (`none` models both a nil map and a missing key). -/
structure Column where
  name : Str
  typ : Str
  type : FieldType
  nullable : Bool
  size : Int
  schemaType : Option Str
  default : Option GoVal
deriving DecidableEq

/-- The `Index` model: logical `name`, `unique` and `primary` flags, the
catalog name `realname`, and the ordered column-name list (`columnNames()`
of the Go struct, which holds either raw names or `*Column`s). -/
structure Index where
  name : Str
  unique : Bool
  primary : Bool
  realname : Str
  columns : List Str
deriving DecidableEq

/-- The `ForeignKey` model: constraint symbol, ordered local columns, the
referenced table's name, and the ordered referenced columns. -/
structure ForeignKey where
  symbol : Str
  columns : List Column
  refTableName : Str
  refColumns : List Column
deriving DecidableEq

/-- The `Table` model: the fields used by `postgres.go`. -/
structure Table where
  name : Str
  columns : List Column
  primaryKey : List Column
deriving DecidableEq

/-- Go `t.column(name)`: looks a column up by name in `t.Columns`. -/
def Table.column (t : Table) (n : Str) : Option Column :=
  t.columns.find? (fun c => decide (c.name = n))

/-- Go `fk.column(name)`: reports whether a local column with that name exists. -/
def ForeignKey.hasColumn (fk : ForeignKey) (n : Str) : Bool :=
  fk.columns.any (fun c => decide (c.name = n))

/-- Go `fk.refColumn(name)`: reports whether a referenced column with that name exists. -/
def ForeignKey.hasRefColumn (fk : ForeignKey) (n : Str) : Bool :=
  fk.refColumns.any (fun c => decide (c.name = n))

/-! ## `postgres.go` embeddings -/

/-- `maxCharSize` (`postgres.go`): the maximum size of limited character types,
`10 << 20`. -/
def maxCharSize : Int := 10485760

/-- Modelled from the spec: `Column.scanTypeOr` (`schema.go`, not under `src/`)
returns the column's introspected native type when present, else the given one. -/
def Column.scanTypeOr (c : Column) (t : Str) : Str :=
  if c.typ ≠ [] then c.typ else t

/-- The `switch c.Type` of `cType` (`postgres.go` lines 336-370), reached when no
per-dialect override applies.  `none` models the `panic` of the `default` case. -/
def cTypeSwitch (c : Column) : Option Str :=
  match c.type with
  | .bool => some "boolean".toList
  | .uint8 | .int8 | .int16 | .uint16 => some "smallint".toList
  | .int32 | .uint32 => some "int".toList
  | .int | .uint | .int64 | .uint64 => some "bigint".toList
  | .float32 => some (c.scanTypeOr "real".toList)
  | .float64 => some (c.scanTypeOr "double precision".toList)
  | .bytes => some "bytea".toList
  | .json => some "jsonb".toList
  | .uuid => some "uuid".toList
  | .string => some (if c.size > maxCharSize then "text".toList else "varchar".toList)
  | .time => some (c.scanTypeOr "timestamp with time zone".toList)
  | .enum => some "varchar".toList
  | .other => some c.typ
  | .invalid => none

/-- `cType` (`postgres.go`): the PostgreSQL native type string for a column.
A non-empty Postgres entry of `SchemaType` always wins; `none` models the
`panic` on an unsupported semantic type. -/
def cType (c : Column) : Option Str :=
  match c.schemaType with
  | some s => if s ≠ [] then some s else cTypeSwitch c
  | none => cTypeSwitch c

/-- `isAlpha` (`postgres.go`): letter or underscore, and decimal digits when
`digit` is set (used for every identifier position after the first). -/
def isAlpha (r : Char) (digit : Bool) : Bool :=
  (decide (Char.ofNat 97 ≤ r) && decide (r ≤ Char.ofNat 122)) ||
  (decide (Char.ofNat 65 ≤ r) && decide (r ≤ Char.ofNat 90)) ||
  decide (r = Char.ofNat 95) ||
  (digit && decide (Char.ofNat 48 ≤ r) && decide (r ≤ Char.ofNat 57))

/-- The identifier scan of `callExpr` (`for i, r := range s[:i]`): every
character must satisfy `isAlpha`, with digits forbidden only at the very
first position (`digit = i > 0`). -/
def identFrom (digit : Bool) : Str → Bool
  | [] => true
  | c :: cs => isAlpha c digit && identFrom true cs

/-- The index checks of `callExpr`, with the identifier scan's starting
`digit` flag generalized: `i` (the first `(`) must exist, the last `)` must
close the string (`j == len(s)-1`, which together with `i ≤ j` reduces to
the last character being `)`), and everything before the first `(` must
scan as an identifier. -/
def coreCheck (digit : Bool) (l : Str) : Bool :=
  match l.dropWhile (fun c => c ≠ '(') with
  | [] => false
  | _ :: _ =>
    decide (l.getLast? = some ')') && identFrom digit (l.takeWhile (fun c => c ≠ '('))

/-- The core of `callExpr` after the `::`-adjustment; the identifier scan
starts at position 0, where digits are forbidden. -/
def callExprCore (l : Str) : Bool := coreCheck false l

/-- The `::`-adjustment of `callExpr`: when the whole string does not end
with `)` but its segment before the first `::` does, that segment is
inspected instead. -/
def castAdjust (s : Str) : Str :=
  if !goHasSuff s [')'] && goHasSuff (splitHead "::".toList s) [')'] then
    splitHead "::".toList s
  else s

/-- `callExpr` (`postgres.go`): reports if the string looks like a function
call expression. -/
def callExpr (s : Str) : Bool := callExprCore (castAdjust s)

/-- Introspection errors raised by `scanColumn` (`postgres.go`). -/
inductive ScanErr where
  | missingArrayType (c : Str)
  | missingUserDefinedType (c : Str)
  | badDefault (c : Str)
deriving DecidableEq

/-- Modelled from the spec: `Column.ScanDefault` (`schema.go`, not under `src/`)
parses the already-unquoted scanned literal according to the column's semantic
type and stores it as the column's default.  The spec describes the quote and
cast stripping as happening before this call (in `scanColumn`), so string-typed
columns store the literal verbatim; booleans and numeric types parse it. -/
def scanDefault (c : Column) (s : Str) : Except ScanErr Column :=
  if c.type = .string ∨ c.type = .enum then
    .ok { c with default := some (.str s) }
  else if c.type = .bool then
    if s = "true".toList then .ok { c with default := some (.bool true) }
    else if s = "false".toList then .ok { c with default := some (.bool false) }
    else .error (.badDefault c.name)
  else if c.type.Numeric then
    match parseDigits s with
    | some n => .ok { c with default := some (.int n) }
    | none => .error (.badDefault c.name)
  else
    .ok { c with default := some (.str s) }

/-- One row of the `information_schema.columns` query of `table()`
(`postgres.go` lines 92-101): the eight selected columns, nullable ones
as `Option` (`sql.NullString` / `sql.NullInt64`). -/
structure ColRow where
  columnName : Str
  dataType : Str
  isNullable : Option Str
  columnDefault : Option Str
  udtName : Option Str
  numericPrecision : Option Int
  numericScale : Option Int
  charMaxLen : Option Int
deriving DecidableEq

/-- The `switch c.typ` of `scanColumn` (`postgres.go` lines 245-302): resolves
the catalog `data_type` into the semantic type, filling size / schema-type
information.  An unmatched data type leaves the zero semantic type (`invalid`). -/
def scanColumnType (row : ColRow) (c : Column) : Except ScanErr Column :=
  if row.dataType = "boolean".toList then .ok { c with type := .bool }
  else if row.dataType = "smallint".toList then .ok { c with type := .int16 }
  else if row.dataType = "integer".toList then .ok { c with type := .int32 }
  else if row.dataType = "bigint".toList then .ok { c with type := .int64 }
  else if row.dataType = "real".toList then .ok { c with type := .float32 }
  else if row.dataType = "double precision".toList then .ok { c with type := .float64 }
  else if row.dataType = "numeric".toList ∨ row.dataType = "decimal".toList then
    .ok (match row.numericPrecision with
      | some p =>
        { c with type := .float64,
                 schemaType := some (c.typ ++ '(' :: intStr p ++ ',' ::
                   intStr (match row.numericScale with | some sc => sc | none => 0) ++ [')']) }
      | none => { c with type := .float64 })
  else if row.dataType = "text".toList then
    .ok { c with type := .string, size := maxCharSize + 1 }
  else if row.dataType = "character".toList ∨ row.dataType = "character varying".toList then
    .ok (match row.charMaxLen with
      | some n =>
        { c with type := .string,
                 schemaType := some ("varchar(".toList ++ intStr n ++ [')']) }
      | none => { c with type := .string })
  else if row.dataType = "date".toList ∨ row.dataType = "time".toList ∨
          row.dataType = "timestamp".toList ∨
          row.dataType = "timestamp with time zone".toList ∨
          row.dataType = "timestamp without time zone".toList then
    .ok { c with type := .time }
  else if row.dataType = "bytea".toList then .ok { c with type := .bytes }
  else if row.dataType = "jsonb".toList then .ok { c with type := .json }
  else if row.dataType = "uuid".toList then .ok { c with type := .uuid }
  else if row.dataType = "cidr".toList ∨ row.dataType = "inet".toList ∨
          row.dataType = "macaddr".toList ∨ row.dataType = "macaddr8".toList then
    .ok { c with type := .other }
  else if row.dataType = "ARRAY".toList then
    match row.udtName with
    | none => .error (.missingArrayType c.name)
    | some udt =>
      .ok { c with type := .other, schemaType := some "ARRAY".toList, typ := udt }
  else if row.dataType = "USER-DEFINED".toList ∨ row.dataType = "tstzrange".toList ∨
          row.dataType = "interval".toList then
    match row.udtName with
    | none => .error (.missingUserDefinedType c.name)
    | some udt => .ok { c with type := .other, schemaType := some udt }
  else .ok c

/-- `scanColumn` (`postgres.go`): builds a `Column` from a catalog row —
name, raw type, nullability, semantic type resolution, and default handling
(`TypeTime` and call expressions are skipped; a `::` cast is split off and
the surrounding quotes trimmed before scanning the literal). -/
def scanColumn (row : ColRow) : Except ScanErr Column :=
  let c0 : Column :=
    { name := row.columnName, typ := row.dataType, type := .invalid,
      nullable := decide (row.isNullable = some "YES".toList),
      size := 0, schemaType := none, default := none }
  match scanColumnType row c0 with
  | .error e => .error e
  | .ok c =>
    match row.columnDefault with
    | none => .ok c
    | some d =>
      if c.type = .time ∨ callExpr d then .ok c
      else if goContains d "::".toList then
        scanDefault c (goTrimCh quoteChar (splitHead "::".toList d))
      else scanDefault c d

/-- Modelled from the spec: `Column.supportDefault` (`schema.go`, not under
`src/`) — defaults are rendered for the literal-bearing types the spec's
default-value rules enumerate: booleans, strings/enums, time, UUID and the
purely numeric types. -/
def supportDefault (c : Column) : Bool :=
  c.type = .bool || c.type = .string || c.type = .enum || c.type = .time ||
  c.type = .uuid || c.type.Numeric

/-- The `attr` computation of `writeDefault` (`postgres.go` lines 396-405):
booleans render as `strconv.FormatBool`; a string default is quoted with each
embedded single quote doubled, unless the column type is UUID, time, or
numeric; every other dynamic type keeps its `fmt.Sprint` form. -/
def writeDefaultAttr (c : Column) (v : GoVal) : Str :=
  match v with
  | .bool b => if b then "true".toList else "false".toList
  | .str s =>
    if c.type ≠ .uuid ∧ c.type ≠ .time ∧ ¬ c.type.Numeric then
      quoteChar :: goReplaceAllCh quoteChar [quoteChar, quoteChar] s ++ [quoteChar]
    else sprint (.str s)
  | .int i => sprint (.int i)

/-- `writeDefault` (`postgres.go`): the rendered `DEFAULT` attribute of a
column, or `none` when the column has no default or its type does not
support one. -/
def writeDefault (c : Column) (clause : Str) : Option Str :=
  match c.default with
  | none => none
  | some v =>
    if supportDefault c then some (clause ++ ' ' :: writeDefaultAttr c v)
    else none

/-- `hasUniqueName` (`postgres.go`): reports if the index carries a custom
(unique) name — its name, after trimming a trailing `_key`, must differ from
the underscore-join of its column names. -/
def hasUniqueName (i : Index) : Bool :=
  if ¬ goHasSuff (goTrimSuff i.name "_key".toList) (goJoin i.columns "_".toList) then true
  else decide (goTrimSuff i.name "_key".toList ≠ goJoin i.columns "_".toList)

/-- The name under which `addIndex` (`postgres.go`) stores a target-side
index: prefixed with the table name exactly when `hasUniqueName` fails. -/
def addIndexName (table : Str) (i : Index) : Str :=
  if ¬ hasUniqueName i then table ++ '_' :: i.name else i.name

/-- One row of the `indexesQuery` result (`postgres.go`): index name, column
name, primary and unique flags, and the in-index sequence position. -/
structure IndexRow where
  name : Str
  column : Str
  primary : Bool
  unique : Bool
  seqindex : Int
deriving DecidableEq

/-- The per-row body of the scan loop of `indexes` (`postgres.go` lines
198-219): the catalog name is unconditionally trimmed of the `<table>_`
prefix to obtain the grouping key; a fresh `Index` keeps the catalog name in
`realname`, and the row's column is appended to the group's column list. -/
def indexesStep (table : Str) (idxs : List Index) (row : IndexRow) : List Index :=
  let short := goTrimPre row.name (table ++ ['_'])
  if idxs.any (fun i => decide (i.name = short)) then
    idxs.map (fun i =>
      if i.name = short then { i with columns := i.columns ++ [row.column] } else i)
  else
    idxs ++ [{ name := short, unique := row.unique, primary := row.primary,
               realname := row.name, columns := [row.column] }]

/-- `indexes` (`postgres.go`): folds the catalog rows into the ordered list
of `Index` aggregates. -/
def indexesScan (table : Str) (rows : List IndexRow) : List Index :=
  rows.foldl (indexesStep table) []

/-- `setRange` (`postgres.go`): the `ALTER TABLE ... RESTART WITH` statement
executed for the universal-id option.  A zero value is clamped to 1; the key
column is the single primary-key column when there is exactly one, and the
literal name `id` otherwise. -/
def setRange (t : Table) (value : Int) : Str :=
  let v := if value = 0 then 1 else value
  let pk := match t.primaryKey with
            | [c] => c.name
            | _ => "id".toList
  "ALTER TABLE ".toList ++ t.name ++ " ALTER COLUMN ".toList ++ pk ++
    " RESTART WITH ".toList ++ intStr v

/-- Modelled from the spec: the restart value the migrator (`migrate.go`, not
under `src/`) passes to `setRange` with universal IDs enabled — the table's
index in the table list times `2^32`. -/
def restartValue (i : Nat) : Int := (i : Int) * 4294967296

/-- One row of the `fkQuery` result (`postgres.go`): the columns actually
used by the scan loop (`tableSchema`, `tableName` and `refTableSchema` are
scanned but only echoed into error messages). -/
structure FKRow where
  constraintName : Str
  columnName : Str
  refTableName : Str
  refColumnName : Str
deriving DecidableEq

/-- Resolution errors raised by `foreignKeys` (`postgres.go` lines 609-620). -/
inductive FKErr where
  | tableNotFound (t : Str)
  | columnNotFound (c : Str)
  | refColumnNotFound (t c : Str)
deriving DecidableEq

/-- Go `tableLookup[refTableName]` of `foreignKeys`: name lookup over the
pre-loaded table list. -/
def findTable (tables : List Table) (n : Str) : Option Table :=
  tables.find? (fun t => decide (t.name = n))

/-- The per-row body of the scan loop of `foreignKeys` (`postgres.go` lines
604-638): resolve the referenced table and both columns (failing with an
explicit error), then either extend the constraint's foreign key — appending
the local / referenced column only when not already present by name — or
start a new one. -/
def fkStep (t : Table) (tables : List Table) (fks : List ForeignKey) (row : FKRow) :
    Except FKErr (List ForeignKey) :=
  match findTable tables row.refTableName with
  | none => .error (.tableNotFound row.refTableName)
  | some refTable =>
    match t.column row.columnName with
    | none => .error (.columnNotFound row.columnName)
    | some column =>
      match refTable.column row.refColumnName with
      | none => .error (.refColumnNotFound row.refTableName row.refColumnName)
      | some refColumn =>
        if fks.any (fun fk => decide (fk.symbol = row.constraintName)) then
          .ok (fks.map (fun fk =>
            if fk.symbol = row.constraintName then
              { fk with
                columns := if fk.hasColumn row.columnName then fk.columns
                           else fk.columns ++ [column],
                refColumns := if fk.hasRefColumn row.refColumnName then fk.refColumns
                              else fk.refColumns ++ [refColumn] }
            else fk))
        else
          .ok (fks ++ [{ symbol := row.constraintName, columns := [column],
                         refTableName := refTable.name, refColumns := [refColumn] }])

/-- The scan loop of `foreignKeys` over one table's constraint rows,
threading the accumulated foreign-key list and propagating errors. -/
def fkFold (t : Table) (tables : List Table) :
    List ForeignKey → List FKRow → Except FKErr (List ForeignKey)
  | fks, [] => .ok fks
  | fks, row :: rows =>
    match fkStep t tables fks row with
    | .error e => .error e
    | .ok fks' => fkFold t tables fks' rows

/-- `foreignKeys` (`postgres.go`) for one table: the ordered foreign-key list
built from its constraint rows, against the pre-loaded table set. -/
def foreignKeysScan (t : Table) (tables : List Table) (rows : List FKRow) :
    Except FKErr (List ForeignKey) :=
  fkFold t tables [] rows

/-! ## `init` and version comparison -/

/-- Modelled from the spec: `parseVersion` (`mysql.go`, not under `src/`)
splits a dotted version string and numerically parses up to three parts
(missing parts default to 0), failing when a part is not a number. -/
def parseVersionM (v : Str) : Option (Nat × Nat × Nat) :=
  let parts := splitCh '.' v
  let part := fun (i : Nat) =>
    match parts.get? i with
    | none => some 0
    | some p => parseDigits p
  match part 0, part 1, part 2 with
  | some a, some b, some c => some (a, b, c)
  | _, _, _ => none

/-- Three-way comparison of naturals, as Go `compare`. -/
def cmpNat (a b : Nat) : Int := if a < b then -1 else if b < a then 1 else 0

/-- Lexicographic three-way comparison of version triples. -/
def cmpTriple (a b : Nat × Nat × Nat) : Int :=
  if cmpNat a.1 b.1 ≠ 0 then cmpNat a.1 b.1
  else if cmpNat a.2.1 b.2.1 ≠ 0 then cmpNat a.2.1 b.2.1
  else cmpNat a.2.2 b.2.2

/-- Modelled from the spec: `compareVersions` (`mysql.go`, not under `src/`)
numerically compares two dotted version strings part by part; an unparsable
version orders below a parsable one. -/
def compareVersionsM (v1 v2 : Str) : Int :=
  match parseVersionM v1, parseVersionM v2 with
  | some a, some b => cmpTriple a b
  | none, some _ => -1
  | some _, none => 1
  | none, none => 0

/-- The dotted version `init` derives from the raw `server_version_num`
string: `version[:2].version[2:4].version[4:]`. -/
def fmtVersion (s : Str) : Str :=
  s.take 2 ++ '.' :: (s.drop 2).take 2 ++ '.' :: s.drop 4

/-- Errors raised by `init` (`postgres.go` lines 28-52) after a successful
query (I/O failures are the driver's). -/
inductive InitErr where
  | notFound
  | malformed (s : Str)
  | unsupported (v : Str)
deriving DecidableEq

/-- `init` (`postgres.go`) from the scanned `server_version_num` row on:
`none` models an absent row (`server_version_num variable was not found`);
a string shorter than 6 characters is malformed; the derived three-part
version must not compare below `10.0.0`.  Returns the stored `d.version`. -/
def initCheck (version : Option Str) : Except InitErr Str :=
  match version with
  | none => .error .notFound
  | some s =>
    if s.length < 6 then .error (.malformed s)
    else
      let v := fmtVersion s
      if compareVersionsM v "10.0.0".toList = -1 then .error (.unsupported v)
      else .ok v

/-! ## The external catalog model used by the type round-trip -/

/-- Models the external PostgreSQL catalog's normalization of a declared
native type name into the `data_type` column of `information_schema.columns`:
Postgres stores `int` as `integer` and `varchar` as `character varying`, and
reports every other type name emitted by `cType` verbatim. -/
def pgDataType (t : Str) : Str :=
  if t = "int".toList then "integer".toList
  else if t = "varchar".toList then "character varying".toList
  else t

/-- Models the `information_schema.columns` row the external catalog reports
for a column declared with native type `t`: the normalized `data_type`, no
default, and NULL numeric precision / scale / character length (the code
consults those fields only for `numeric`/`decimal` and bounded `character`
types, which `cType` never emits without an override). -/
def catalogRow (name t : Str) : ColRow :=
  { columnName := name, dataType := pgDataType t, isNullable := some "YES".toList,
    columnDefault := none, udtName := none, numericPrecision := none,
    numericScale := none, charMaxLen := none }

/-- A fresh target-side column (as produced by the entity-model compiler):
only the name and semantic type are set. -/
def targetColumn (name : Str) (t : FieldType) : Column :=
  { name := name, typ := [], type := t, nullable := false, size := 0,
    schemaType := none, default := none }

/-- The semantic type recovered after mapping a column to its native type
with `cType`, declaring it, and introspecting the resulting catalog row with
`scanColumn` (`none` when `cType` panics or introspection fails). -/
def roundTripType (c : Column) : Option FieldType :=
  match cType c with
  | none => none
  | some t =>
    match scanColumn (catalogRow c.name t) with
    | .error _ => none
    | .ok c2 => some c2.type

/-- The shape the spec describes for call expressions: a (non-empty)
identifier — first character a letter or underscore, digits allowed after —
immediately followed by a parenthesized argument list occupying the entire
remaining value. -/
def specCallShape (s : Str) : Prop :=
  ∃ id args, s = id ++ '(' :: (args ++ [')']) ∧ id ≠ [] ∧ identFrom false id = true

/-- The shape `callExprCore` actually accepts: the identifier run may be
empty. -/
def looseCallShape (l : Str) : Prop :=
  ∃ pre args, l = pre ++ '(' :: (args ++ [')']) ∧ identFrom false pre = true

/-- A catalog row whose default is a function-call expression
(`nextval(...)`, as Postgres reports for serial columns). -/
def nowRow : ColRow :=
  { columnName := "id".toList, dataType := "bigint".toList, isNullable := some "NO".toList,
    columnDefault := some "nextval('users_id_seq'::regclass)".toList,
    udtName := none, numericPrecision := none, numericScale := none, charMaxLen := none }

/-- The column `scanColumn` produces from `nowRow`: its default is unset. -/
def nowCol : Column :=
  { name := "id".toList, typ := "bigint".toList, type := .int64, nullable := false,
    size := 0, schemaType := none, default := none }

/-- A table with a composite (two-column) primary key, as hit by the
universal-id option. -/
def userGroups : Table :=
  { name := "user_groups".toList, columns := [],
    primaryKey := [targetColumn "group_id".toList .int64,
                   targetColumn "user_id".toList .int64] }

/-- A live catalog row for an index named `users_foo` over the single column
`bar` of table `users` — a name inconsistent with its column list. -/
def fooRow : IndexRow :=
  { name := "users_foo".toList, column := "bar".toList, primary := false,
    unique := false, seqindex := 1 }

/-- The index that `indexes` produces from `fooRow`. -/
def fooIdx : Index :=
  { name := "foo".toList, unique := false, primary := false,
    realname := "users_foo".toList, columns := ["bar".toList] }

/-- A target-side index `name` over the single column `name`. -/
def nameIdx : Index :=
  { name := "name".toList, unique := true, primary := false,
    realname := [], columns := ["name".toList] }

/-- The live catalog row of the index that `addIndex` created for `nameIdx`
on table `users`. -/
def usersNameRow : IndexRow :=
  { name := "users_name".toList, column := "name".toList, primary := false,
    unique := true, seqindex := 1 }

/-- A target string column with the default value `O'Brien`. -/
def obrienCol : Column :=
  { targetColumn "nickname".toList .string with default := some (.str "O'Brien".toList) }

/-- The catalog row Postgres reports for that column: `column_default`
renders the stored string default with its embedded quote doubled,
surrounded by quotes, and followed by a `::` cast suffix. -/
def obrienRow : ColRow :=
  { columnName := "nickname".toList, dataType := "character varying".toList,
    isNullable := some "YES".toList,
    columnDefault := some "'O''Brien'::character varying".toList,
    udtName := none, numericPrecision := none, numericScale := none, charMaxLen := none }

/-- A constraint row is resolvable when its referenced table is among the
loaded tables and both its local and referenced column names resolve. -/
def rowResolves (t : Table) (tables : List Table) (row : FKRow) : Prop :=
  ∃ rt, findTable tables row.refTableName = some rt ∧
    (t.column row.columnName).isSome = true ∧
    (rt.column row.refColumnName).isSome = true

/-- The per-name duplicate-freeness of the two column lists of a foreign key. -/
def fkNodup (fk : ForeignKey) : Prop :=
  (fk.columns.map (fun c => c.name)).Nodup ∧ (fk.refColumns.map (fun c => c.name)).Nodup

/-- A table with one foreign-key column. -/
def postsTable : Table :=
  { name := "posts".toList, columns := [targetColumn "author_a".toList .int64],
    primaryKey := [] }

/-- The referenced table with two candidate columns. -/
def usersTable : Table :=
  { name := "users".toList,
    columns := [targetColumn "x".toList .int64, targetColumn "y".toList .int64],
    primaryKey := [] }

/-- Two rows of one constraint repeating the local column `author_a` while
introducing two distinct referenced columns. -/
def dupFkRows : List FKRow :=
  [{ constraintName := "posts_users".toList, columnName := "author_a".toList,
     refTableName := "users".toList, refColumnName := "x".toList },
   { constraintName := "posts_users".toList, columnName := "author_a".toList,
     refTableName := "users".toList, refColumnName := "y".toList }]

/-- The foreign key `foreignKeys` produces from `dupFkRows`: one local
column against two referenced columns. -/
def dupFk : ForeignKey :=
  { symbol := "posts_users".toList, columns := [targetColumn "author_a".toList .int64],
    refTableName := "users".toList,
    refColumns := [targetColumn "x".toList .int64, targetColumn "y".toList .int64] }

/-! ## General lemmas -/

theorem goHasSuff_refl (s : Str) : goHasSuff s s = true := by
  simp [goHasSuff]

theorem indexesStep_name (table : Str) {idxs : List Index} {row : IndexRow}
    (h : ∀ i ∈ idxs, i.name = goTrimPre i.realname (table ++ ['_'])) :
    ∀ i ∈ indexesStep table idxs row, i.name = goTrimPre i.realname (table ++ ['_']) := by
  intro i hi
  simp only [indexesStep] at hi
  split at hi
  · rcases List.mem_map.1 hi with ⟨j, hj, rfl⟩
    split <;> simpa using h j hj
  · rcases List.mem_append.1 hi with hj | hj
    · exact h i hj
    · rcases List.mem_singleton.1 hj with rfl
      rfl

theorem indexesFold_name (table : Str) (rows : List IndexRow) :
    ∀ idxs, (∀ i ∈ idxs, i.name = goTrimPre i.realname (table ++ ['_'])) →
      ∀ i ∈ rows.foldl (indexesStep table) idxs,
        i.name = goTrimPre i.realname (table ++ ['_']) := by
  induction rows with
  | nil => intro idxs h; simpa using h
  | cons row rows ih =>
    intro idxs h
    exact ih (indexesStep table idxs row) (indexesStep_name table h)

/-! ## Claims -/

/-- C1: Type round-trip.  For every semantic column type supported by the
Postgres dialect, mapping a fresh target column to its native type string
with `cType`, declaring it (the external catalog normalizes `int` to
`integer` and `varchar` to `character varying`), and resolving the catalog
row back through `scanColumn` returns the original semantic type — except
the documented lossy collapses: `int8`/`uint8`/`uint16` (and `int16`) to
`int16`, `uint32` to `int32`, `int`/`uint`/`uint64` to `int64`, and `enum`
to `string`.  A `numeric` column introspected with precision `P` and scale
`S` re-derives the native type `numeric(P,S)` carrying the same `P` and `S`. -/
theorem c1_type_roundtrip : ∀ name : Str,
    roundTripType (targetColumn name .bool) = some .bool ∧
    roundTripType (targetColumn name .int8) = some .int16 ∧
    roundTripType (targetColumn name .uint8) = some .int16 ∧
    roundTripType (targetColumn name .int16) = some .int16 ∧
    roundTripType (targetColumn name .uint16) = some .int16 ∧
    roundTripType (targetColumn name .int32) = some .int32 ∧
    roundTripType (targetColumn name .uint32) = some .int32 ∧
    roundTripType (targetColumn name .int) = some .int64 ∧
    roundTripType (targetColumn name .uint) = some .int64 ∧
    roundTripType (targetColumn name .int64) = some .int64 ∧
    roundTripType (targetColumn name .uint64) = some .int64 ∧
    roundTripType (targetColumn name .float32) = some .float32 ∧
    roundTripType (targetColumn name .float64) = some .float64 ∧
    roundTripType (targetColumn name .bytes) = some .bytes ∧
    roundTripType (targetColumn name .json) = some .json ∧
    roundTripType (targetColumn name .uuid) = some .uuid ∧
    roundTripType (targetColumn name .time) = some .time ∧
    roundTripType (targetColumn name .string) = some .string ∧
    roundTripType { targetColumn name .string with size := maxCharSize + 1 } = some .string ∧
    roundTripType (targetColumn name .enum) = some .string ∧
    roundTripType { targetColumn name .other with typ := "cidr".toList } = some .other ∧
    roundTripType { targetColumn name .other with typ := "inet".toList } = some .other ∧
    roundTripType { targetColumn name .other with typ := "macaddr".toList } = some .other ∧
    roundTripType { targetColumn name .other with typ := "macaddr8".toList } = some .other ∧
    (∀ P S : Int,
      (scanColumn { columnName := name, dataType := "numeric".toList,
                    isNullable := some "YES".toList, columnDefault := none, udtName := none,
                    numericPrecision := some P, numericScale := some S,
                    charMaxLen := none }).map (fun c => (c.schemaType, cType c)) =
        .ok (some ("numeric(".toList ++ intStr P ++ ',' :: intStr S ++ [')']),
             some ("numeric(".toList ++ intStr P ++ ',' :: intStr S ++ [')']))) := by
  intro name
  exact ⟨rfl, rfl, rfl, rfl, rfl, rfl, rfl, rfl, rfl, rfl, rfl, rfl, rfl, rfl, rfl, rfl,
         rfl, rfl, rfl, rfl, rfl, rfl, rfl, rfl, fun P S => rfl⟩

/-- C2 counterexample: for a table with a composite primary key, `setRange`
does not reject or skip — it emits an `ALTER TABLE ... RESTART WITH`
statement, guessing the fallback column name `id`. -/
theorem c2_counterexample :
    userGroups.primaryKey.length = 2 ∧
    setRange userGroups 4294967296 =
      "ALTER TABLE user_groups ALTER COLUMN id RESTART WITH 4294967296".toList ∧
    "ALTER TABLE user_groups ALTER COLUMN ".toList ++ "id RESTART WITH 4294967296".toList =
      setRange userGroups 4294967296 := by
  exact ⟨rfl, rfl, rfl⟩

/-- C2 amended: when the table does not have exactly one primary-key column,
`setRange` assumes a key column literally named `id` and still emits the
`RESTART WITH` statement for it (with a zero value clamped to 1); no
configuration error is raised. -/
theorem c2_setrange_composite : ∀ (t : Table) (v : Int), t.primaryKey.length ≠ 1 →
    setRange t v = "ALTER TABLE ".toList ++ t.name ++ " ALTER COLUMN ".toList ++
      "id".toList ++ " RESTART WITH ".toList ++ intStr (if v = 0 then 1 else v) := by
  intro t v hlen
  match hpk : t.primaryKey with
  | [] => simp only [setRange, hpk]
  | [c] => exact absurd (by rw [hpk]; rfl) hlen
  | c :: c2 :: rest => simp only [setRange, hpk]

/-- C2 witness. -/
theorem c2_setrange_composite_witness :
    setRange userGroups 0 = "ALTER TABLE ".toList ++ userGroups.name ++
      " ALTER COLUMN ".toList ++ "id".toList ++ " RESTART WITH ".toList ++
        intStr (if (0 : Int) = 0 then 1 else 0) :=
  c2_setrange_composite userGroups 0 (by decide)

/-- C5: `addIndex` stores a target-side index under the collision-avoiding
name `<table>_<logical name>` if and only if the logical name, after
trimming a trailing `_key` suffix, is exactly the underscore-join of the
index's column names; any other logical name (one that does not end with
that column-derived suffix, or that strictly extends it) is kept as-is. -/
theorem c5_addindex_name : ∀ (i : Index) (table : Str),
    addIndexName table i = table ++ '_' :: i.name ↔
      goTrimSuff i.name "_key".toList = goJoin i.columns "_".toList := by
  intro i table
  by_cases h : goTrimSuff i.name "_key".toList = goJoin i.columns "_".toList
  · have hu : hasUniqueName i = false := by
      unfold hasUniqueName
      rw [h]
      simp [goHasSuff_refl]
    simp [addIndexName, hu]
    exact h
  · have hu : hasUniqueName i = true := by
      unfold hasUniqueName
      split
      · rfl
      · simpa using h
    simp only [addIndexName, hu, not_true_eq_false, if_false]
    constructor
    · intro heq
      have hl := congrArg List.length heq
      simp only [List.length_append, List.length_cons] at hl
      omega
    · intro heq; exact absurd heq h

/-- C7: with universal IDs enabled, the restart value for the table at list
index `i` is `i * 2^32`; `setRange` clamps the value 0 (and only 0) to 1,
so the first table restarts at 1 and every other table at its exact
partition start. -/
theorem c7_universal_id : ∀ (t : Table) (c : Column), t.primaryKey = [c] →
    (∀ i : Nat, setRange t (restartValue i) =
      "ALTER TABLE ".toList ++ t.name ++ " ALTER COLUMN ".toList ++ c.name ++
        " RESTART WITH ".toList ++ intStr (if i = 0 then 1 else restartValue i)) ∧
    (∀ v : Int, 0 < v → setRange t v =
      "ALTER TABLE ".toList ++ t.name ++ " ALTER COLUMN ".toList ++ c.name ++
        " RESTART WITH ".toList ++ intStr v) := by
  intro t c hpk
  have hzero : ∀ i : Nat, restartValue i = 0 ↔ i = 0 := by
    intro i
    unfold restartValue
    constructor
    · intro h
      rcases mul_eq_zero.1 h with h1 | h1
      · exact_mod_cast h1
      · omega
    · intro h; subst h; simp
  constructor
  · intro i
    by_cases hi : i = 0
    · subst hi
      simp only [setRange, hpk]
      norm_num [restartValue]
    · have : restartValue i ≠ 0 := fun h => hi ((hzero i).1 h)
      simp only [setRange, hpk, if_neg this, if_neg hi]
  · intro v hv
    have : v ≠ 0 := by omega
    simp only [setRange, hpk, if_neg this]

/-- C7 witness. -/
theorem c7_universal_id_witness :
    setRange { name := "users".toList, columns := [],
               primaryKey := [targetColumn "id".toList .int64] } (restartValue 0) =
      "ALTER TABLE ".toList ++ "users".toList ++ " ALTER COLUMN ".toList ++ "id".toList ++
        " RESTART WITH ".toList ++ intStr 1 ∧
    setRange { name := "users".toList, columns := [],
               primaryKey := [targetColumn "id".toList .int64] } 4294967296 =
      "ALTER TABLE ".toList ++ "users".toList ++ " ALTER COLUMN ".toList ++ "id".toList ++
        " RESTART WITH ".toList ++ intStr 4294967296 := by
  constructor
  · exact (c7_universal_id _ (targetColumn "id".toList .int64) rfl).1 0
  · exact (c7_universal_id _ (targetColumn "id".toList .int64) rfl).2 4294967296 (by decide)

/-- C10: `cType` returns a native type string exactly when the column's
semantic type is one of the enumerated supported types (every type except
the zero/invalid one) or the column carries a non-empty Postgres
per-dialect override; otherwise it panics (`none`).  `scanColumn` leaves
the zero/invalid semantic type (and no override) on a column whose catalog
data type (here `money`) matches none of its cases, so introspect-then-map
panics on it. -/
theorem c10_ctype_totality :
    (∀ c : Column, (cType c).isSome = true ↔
      (c.type ≠ .invalid ∨ ∃ s, c.schemaType = some s ∧ s ≠ [])) ∧
    (scanColumn { columnName := "balance".toList, dataType := "money".toList,
                  isNullable := some "NO".toList, columnDefault := none, udtName := none,
                  numericPrecision := none, numericScale := none,
                  charMaxLen := none }).map (fun c => (c.type, c.schemaType, cType c)) =
      .ok (.invalid, none, none) := by
  constructor
  · intro c
    obtain ⟨n, ty, fty, nu, sz, st, df⟩ := c
    cases st with
    | none => cases fty <;> simp [cType, cTypeSwitch]
    | some s =>
      by_cases hs : s = []
      · subst hs
        cases fty <;> simp [cType, cTypeSwitch]
      · simp only [cType, if_pos hs, Option.isSome_some, true_iff]
        exact Or.inr ⟨s, rfl, hs⟩
  · rfl

/-- C4 counterexample: introspecting the live index `users_foo` on table
`users` with column list `[bar]` strips the `users_` prefix and records the
logical name `foo`, even though that name is inconsistent with the column
list (`hasUniqueName` holds, i.e. the claim's "custom storage key" case):
the full catalog name is not kept as the index's name. -/
theorem c4_counterexample :
    indexesScan "users".toList [fooRow] = [fooIdx] ∧
    hasUniqueName fooIdx = true ∧
    fooIdx.name ≠ fooIdx.realname := by
  exact ⟨rfl, rfl, by decide⟩

/-- C4 amended: introspection always strips the `<table>_` prefix from the
catalog name to recover the logical name, keeping the full catalog name in
the index's `realname` — no consistency check against the column list is
applied on the live side.  Consequently the target index `name` on
`users(name)`, stored by `addIndex` as `users_name`, is recovered on
introspection under its logical name `name` again. -/
theorem c4_index_strip :
    (∀ (table : Str) (rows : List IndexRow), ∀ idx ∈ indexesScan table rows,
      idx.name = goTrimPre idx.realname (table ++ ['_'])) ∧
    addIndexName "users".toList nameIdx = "users_name".toList ∧
    (indexesScan "users".toList [usersNameRow]).map (fun i => i.name) = ["name".toList] := by
  refine ⟨?_, rfl, rfl⟩
  intro table rows idx hidx
  exact indexesFold_name table rows [] (by simp) idx hidx

/-- C4 witness. -/
theorem c4_index_strip_witness :
    fooIdx.name = goTrimPre fooIdx.realname ("users".toList ++ ['_']) :=
  c4_index_strip.1 "users".toList [fooRow] fooIdx (by decide)

/-- C3 counterexample: re-introspecting the `O'Brien` column strips the
surrounding quotes and the `::cast` suffix but does not un-double the
embedded quote — the recovered default is `O''Brien`, not `O'Brien`. -/
theorem c3_counterexample :
    (scanColumn obrienRow).map (fun c => c.default) = .ok (some (.str "O''Brien".toList)) ∧
    "O''Brien".toList ≠ "O'Brien".toList := by
  exact ⟨rfl, by decide⟩

/-- C3 amended: a string-typed column's default is quoted with every embedded
single quote doubled; boolean defaults render as their textual form; no
quoting is applied for time, UUID, or purely numeric column types.  The
`O'Brien` default emits `DEFAULT 'O''Brien'`; re-introspection strips the
surrounding quotes and the `::cast` suffix of the reported default but keeps
the doubled embedded quote, yielding `O''Brien`. -/
theorem c3_default_rendering :
    (∀ (c : Column) (s : Str), c.type = .string → c.default = some (.str s) →
      writeDefault c "DEFAULT".toList =
        some ("DEFAULT ".toList ++ quoteChar ::
          (goReplaceAllCh quoteChar [quoteChar, quoteChar] s ++ [quoteChar]))) ∧
    (∀ (c : Column) (b : Bool), c.type = .bool → c.default = some (.bool b) →
      writeDefault c "DEFAULT".toList =
        some ("DEFAULT ".toList ++ (if b then "true".toList else "false".toList))) ∧
    (∀ (c : Column) (s : Str),
      (c.type = .time ∨ c.type = .uuid ∨ c.type.Numeric = true) →
      c.default = some (.str s) →
      writeDefault c "DEFAULT".toList = some ("DEFAULT ".toList ++ s)) ∧
    writeDefault obrienCol "DEFAULT".toList = some "DEFAULT 'O''Brien'".toList ∧
    (scanColumn obrienRow).map (fun c => c.default) = .ok (some (.str "O''Brien".toList)) := by
  refine ⟨?_, ?_, ?_, rfl, rfl⟩
  · intro c s ht hd
    simp [writeDefault, hd, supportDefault, ht, writeDefaultAttr, FieldType.Numeric, sprint]
  · intro c b ht hd
    simp [writeDefault, hd, supportDefault, ht, writeDefaultAttr]
  · intro c s ht hd
    rcases ht with ht | ht | ht
    · simp [writeDefault, hd, supportDefault, ht, writeDefaultAttr, sprint]
    · simp [writeDefault, hd, supportDefault, ht, writeDefaultAttr, sprint]
    · simp [writeDefault, hd, supportDefault, writeDefaultAttr, ht, sprint]

/-- C3 witness. -/
theorem c3_default_rendering_witness :
    writeDefault obrienCol "DEFAULT".toList =
      some ("DEFAULT ".toList ++ quoteChar ::
        (goReplaceAllCh quoteChar [quoteChar, quoteChar] "O'Brien".toList ++ [quoteChar])) :=
  c3_default_rendering.1 obrienCol "O'Brien".toList rfl rfl

theorem fkStep_ok_resolves {t : Table} {tables : List Table} {fks fks' : List ForeignKey}
    {row : FKRow} (h : fkStep t tables fks row = .ok fks') : rowResolves t tables row := by
  unfold fkStep at h
  cases hft : findTable tables row.refTableName with
  | none => simp only [hft] at h; cases h
  | some rt =>
    cases hc : t.column row.columnName with
    | none => simp only [hft, hc] at h; cases h
    | some col =>
      cases hrc : rt.column row.refColumnName with
      | none => simp only [hft, hc, hrc] at h; cases h
      | some rcol => exact ⟨rt, hft, by simp [hc], by simp [hrc]⟩

theorem nodup_name_append {l : List Column} {col : Column} {n : Str}
    (hnd : (l.map (fun c => c.name)).Nodup) (hcol : col.name = n)
    (hnot : (l.any (fun c => decide (c.name = n))) = false) :
    ((l ++ [col]).map (fun c => c.name)).Nodup := by
  rw [List.map_append, List.map_singleton, ← List.concat_eq_append]
  refine List.Nodup.concat ?_ hnd
  intro hmem
  rcases List.mem_map.1 hmem with ⟨c, hcl, hcn⟩
  have : l.any (fun c => decide (c.name = n)) = true :=
    List.any_eq_true.2 ⟨c, hcl, by simp [hcn, hcol]⟩
  rw [hnot] at this
  cases this

theorem fkStep_ok_nodup {t : Table} {tables : List Table} {fks fks' : List ForeignKey}
    {row : FKRow} (hinv : ∀ fk ∈ fks, fkNodup fk)
    (h : fkStep t tables fks row = .ok fks') : ∀ fk ∈ fks', fkNodup fk := by
  unfold fkStep at h
  cases hft : findTable tables row.refTableName with
  | none => simp only [hft] at h; cases h
  | some rt =>
    cases hc : t.column row.columnName with
    | none => simp only [hft, hc] at h; cases h
    | some col =>
      cases hrc : rt.column row.refColumnName with
      | none => simp only [hft, hc, hrc] at h; cases h
      | some rcol =>
        simp only [hft, hc, hrc] at h
        have hcoln : col.name = row.columnName := by
          have := List.find?_some hc
          simpa using this
        have hrcoln : rcol.name = row.refColumnName := by
          have := List.find?_some hrc
          simpa using this
        split at h
        · cases h
          intro fk hfk
          rcases List.mem_map.1 hfk with ⟨j, hj, rfl⟩
          by_cases hsym : j.symbol = row.constraintName
          · rw [if_pos hsym]
            constructor
            · show (List.map (fun c => c.name)
                (if j.hasColumn row.columnName then j.columns else j.columns ++ [col])).Nodup
              by_cases hhas : j.hasColumn row.columnName = true
              · rw [if_pos hhas]
                exact (hinv j hj).1
              · rw [if_neg hhas]
                have hn : j.columns.any (fun c => decide (c.name = row.columnName)) = false := by
                  revert hhas
                  cases hb : j.hasColumn row.columnName
                  · intro _; exact hb
                  · intro hhas; exact absurd rfl hhas
                exact nodup_name_append (hinv j hj).1 hcoln hn
            · show (List.map (fun c => c.name)
                (if j.hasRefColumn row.refColumnName then j.refColumns
                 else j.refColumns ++ [rcol])).Nodup
              by_cases hhas : j.hasRefColumn row.refColumnName = true
              · rw [if_pos hhas]
                exact (hinv j hj).2
              · rw [if_neg hhas]
                have hn : j.refColumns.any (fun c => decide (c.name = row.refColumnName)) = false := by
                  revert hhas
                  cases hb : j.hasRefColumn row.refColumnName
                  · intro _; exact hb
                  · intro hhas; exact absurd rfl hhas
                exact nodup_name_append (hinv j hj).2 hrcoln hn
          · rw [if_neg hsym]
            exact hinv j hj
        · cases h
          intro fk hfk
          rcases List.mem_append.1 hfk with hj | hj
          · exact hinv fk hj
          · rcases List.mem_singleton.1 hj with rfl
            exact ⟨List.nodup_singleton _, List.nodup_singleton _⟩

theorem fkFold_ok_nodup {t : Table} {tables : List Table} :
    ∀ (rows : List FKRow) (fks fksOut : List ForeignKey),
      (∀ fk ∈ fks, fkNodup fk) → fkFold t tables fks rows = .ok fksOut →
      ∀ fk ∈ fksOut, fkNodup fk := by
  intro rows
  induction rows with
  | nil =>
    intro fks fksOut hinv h
    cases h
    exact hinv
  | cons row rows ih =>
    intro fks fksOut hinv h
    unfold fkFold at h
    cases hstep : fkStep t tables fks row with
    | error e => rw [hstep] at h; cases h
    | ok fks' =>
      rw [hstep] at h
      exact ih fks' fksOut (fkStep_ok_nodup hinv hstep) h

theorem fkFold_ok_resolves {t : Table} {tables : List Table} :
    ∀ (rows : List FKRow) (fks fksOut : List ForeignKey),
      fkFold t tables fks rows = .ok fksOut →
      ∀ row ∈ rows, rowResolves t tables row := by
  intro rows
  induction rows with
  | nil => intro fks fksOut _ row hrow; cases hrow
  | cons row rows ih =>
    intro fks fksOut h r hr
    unfold fkFold at h
    cases hstep : fkStep t tables fks row with
    | error e => rw [hstep] at h; cases h
    | ok fks' =>
      rw [hstep] at h
      rcases List.mem_cons.1 hr with rfl | hr'
      · exact fkStep_ok_resolves hstep
      · exact ih fks' fksOut h r hr'

/-- C9 amended: for every `ForeignKey` object produced by `foreignKeys`, the
local and referenced column lists are duplicate-free (by name) accumulations
in row-discovery order — but they are not guaranteed to have the same length
or be positionally paired, because the two lists are deduplicated
independently; and introspection fails with an explicit error whenever a
referenced table, a local column, or a referenced column cannot be resolved
against the loaded tables (success implies every row resolved). -/
theorem c9_foreign_keys : ∀ (t : Table) (tables : List Table) (rows : List FKRow)
    (fks : List ForeignKey), foreignKeysScan t tables rows = .ok fks →
    (∀ fk ∈ fks, fkNodup fk) ∧ (∀ row ∈ rows, rowResolves t tables row) := by
  intro t tables rows fks h
  exact ⟨fkFold_ok_nodup rows [] fks (by simp) h, fkFold_ok_resolves rows [] fks h⟩

/-- C9 counterexample: the produced foreign key has a local column list of
length 1 but a referenced column list of length 2 — the two lists are not
the same length, hence not positionally paired. -/
theorem c9_counterexample :
    foreignKeysScan postsTable [postsTable, usersTable] dupFkRows = .ok [dupFk] ∧
    dupFk.columns.length = 1 ∧ dupFk.refColumns.length = 2 := by
  exact ⟨rfl, rfl, rfl⟩

/-- C9 witness. -/
theorem c9_foreign_keys_witness :
    fkNodup dupFk ∧
    rowResolves postsTable [postsTable, usersTable]
      { constraintName := "posts_users".toList, columnName := "author_a".toList,
        refTableName := "users".toList, refColumnName := "x".toList } := by
  have h := c9_foreign_keys postsTable [postsTable, usersTable] dupFkRows [dupFk] rfl
  exact ⟨h.1 dupFk (by decide), h.2 _ (by decide)⟩

theorem isAlpha_paren (b : Bool) : isAlpha '(' b = false := by
  cases b <;> decide

theorem identFrom_ne_paren {b : Bool} {l : Str} (h : identFrom b l = true) :
    ∀ c ∈ l, c ≠ '(' := by
  induction l generalizing b with
  | nil => intro c hc; cases hc
  | cons x xs ih =>
    simp only [identFrom, Bool.and_eq_true] at h
    intro c hc
    rcases List.mem_cons.1 hc with rfl | hc'
    · intro heq
      rw [heq, isAlpha_paren] at h
      exact Bool.false_ne_true h.1
    · exact ih h.2 c hc'

theorem append_singleton_iff {m : Str} {ch : Char} :
    m.getLast? = some ch ↔ ∃ a, m = a ++ [ch] := by
  constructor
  · intro h
    induction m using List.reverseRecOn with
    | nil => cases h
    | append_singleton a x _ =>
      rw [List.getLast?_concat] at h
      cases h
      exact ⟨a, rfl⟩
  · rintro ⟨a, rfl⟩
    exact List.getLast?_concat a

theorem coreCheck_iff (digit : Bool) (l : Str) :
    coreCheck digit l = true ↔
      ∃ pre args, l = pre ++ '(' :: (args ++ [')']) ∧ identFrom digit pre = true := by
  induction l generalizing digit with
  | nil =>
    simp only [coreCheck, List.dropWhile_nil]
    constructor
    · intro h; cases h
    · rintro ⟨pre, args, heq, -⟩
      exact absurd heq (by simp)
  | cons c cs ih =>
    by_cases hc : c = '('
    · subst hc
      have hdw : ('(' :: cs).dropWhile (fun x => decide (x ≠ '(')) = '(' :: cs := by
        rw [List.dropWhile_cons]; simp
      have htw : ('(' :: cs).takeWhile (fun x => decide (x ≠ '(')) = [] := by
        rw [List.takeWhile_cons]; simp
      simp only [coreCheck, hdw, htw, identFrom, Bool.and_true, decide_eq_true_eq]
      constructor
      · intro h
        rcases append_singleton_iff.1 h with ⟨a, ha⟩
        cases a with
        | nil => simp at ha
        | cons x a' =>
          obtain ⟨hx, hcs⟩ := List.cons.injEq '(' cs x (a' ++ [')']) ▸ ha
          exact ⟨[], a', by rw [hcs, List.nil_append], rfl⟩
      · rintro ⟨pre, args, heq, hid⟩
        cases pre with
        | nil =>
          simp only [List.nil_append] at heq
          injection heq with h1 h2
          rw [h2, show ('(' :: (args ++ [')'])) = ('(' :: args) ++ [')'] from rfl]
          exact List.getLast?_concat _
        | cons p pre' =>
          rw [List.cons_append] at heq
          injection heq with h1 h2
          rw [← h1] at hid
          have := identFrom_ne_paren hid '(' (List.mem_cons_self _ _)
          exact absurd rfl this
    · have hdw : (c :: cs).dropWhile (fun x => decide (x ≠ '(')) =
          cs.dropWhile (fun x => decide (x ≠ '(')) := by
        rw [List.dropWhile_cons]; simp [hc]
      have htw : (c :: cs).takeWhile (fun x => decide (x ≠ '(')) =
          c :: cs.takeWhile (fun x => decide (x ≠ '(')) := by
        rw [List.takeWhile_cons]; simp [hc]
      have hdec : (∃ pre args, c :: cs = pre ++ '(' :: (args ++ [')']) ∧
            identFrom digit pre = true) ↔
          (isAlpha c digit = true ∧ ∃ pre' args, cs = pre' ++ '(' :: (args ++ [')']) ∧
            identFrom true pre' = true) := by
        constructor
        · rintro ⟨pre, args, heq, hid⟩
          cases pre with
          | nil =>
            simp only [List.nil_append] at heq
            injection heq with h1 h2
            exact absurd h1 hc
          | cons p pre' =>
            rw [List.cons_append] at heq
            injection heq with h1 h2
            rw [← h1] at hid
            simp only [identFrom, Bool.and_eq_true] at hid
            exact ⟨hid.1, pre', args, h2, hid.2⟩
        · rintro ⟨ha, pre', args, heq, hid⟩
          exact ⟨c :: pre', args, by rw [List.cons_append, heq],
                 by simp [identFrom, ha, hid]⟩
      rw [hdec, ← ih true]
      cases hdw2 : cs.dropWhile (fun x => decide (x ≠ '(')) with
      | nil =>
        have h1 : coreCheck digit (c :: cs) = false := by
          simp only [coreCheck, hdw, hdw2]
        have h2 : coreCheck true cs = false := by
          simp only [coreCheck, hdw2]
        rw [h1, h2]
        simp
      | cons d ds =>
        have hcs_ne : cs ≠ [] := by
          rintro rfl
          simp at hdw2
        obtain ⟨e, es, rfl⟩ : ∃ e es, cs = e :: es := by
          cases cs with
          | nil => exact absurd rfl hcs_ne
          | cons e es => exact ⟨e, es, rfl⟩
        have hlast : (c :: e :: es).getLast? = (e :: es).getLast? :=
          List.getLast?_cons_cons
        simp only [coreCheck, hdw, hdw2, htw, hlast, identFrom, Bool.and_eq_true]
        tauto

/-- `callExpr` accepts `(x)` — an empty identifier followed by a
parenthesized list — which is not of the claim's shape (an identifier must
be non-empty); so `callExpr` does not return true exactly for strings of
that shape. -/
theorem c8_counterexample :
    callExpr "(x)".toList = true ∧ ¬ specCallShape "(x)".toList := by
  refine ⟨rfl, ?_⟩
  rintro ⟨id, args, heq, hne, hid⟩
  cases id with
  | nil => exact hne rfl
  | cons p id' =>
    have heq' : ('(' :: 'x' :: ')' :: ([] : Str)) =
        p :: (id' ++ '(' :: (args ++ [')'])) := by
      rw [← List.cons_append]
      exact heq
    injection heq' with h1 h2
    rw [← h1] at hid
    have := identFrom_ne_paren hid '(' (List.mem_cons_self _ _)
    exact this rfl

theorem scanColumnType_default {row : ColRow} {c c' : Column}
    (h : scanColumnType row c = .ok c') : c'.default = c.default := by
  unfold scanColumnType at h
  by_cases h1 : row.dataType = "boolean".toList
  all_goals try (rw [if_pos h1] at h; cases h; rfl)
  rw [if_neg h1] at h
  by_cases h2 : row.dataType = "smallint".toList
  all_goals try (rw [if_pos h2] at h; cases h; rfl)
  rw [if_neg h2] at h
  by_cases h3 : row.dataType = "integer".toList
  all_goals try (rw [if_pos h3] at h; cases h; rfl)
  rw [if_neg h3] at h
  by_cases h4 : row.dataType = "bigint".toList
  all_goals try (rw [if_pos h4] at h; cases h; rfl)
  rw [if_neg h4] at h
  by_cases h5 : row.dataType = "real".toList
  all_goals try (rw [if_pos h5] at h; cases h; rfl)
  rw [if_neg h5] at h
  by_cases h6 : row.dataType = "double precision".toList
  all_goals try (rw [if_pos h6] at h; cases h; rfl)
  rw [if_neg h6] at h
  by_cases h7 : row.dataType = "numeric".toList ∨ row.dataType = "decimal".toList
  all_goals try (rw [if_pos h7] at h; cases h; cases row.numericPrecision <;> rfl)
  rw [if_neg h7] at h
  by_cases h8 : row.dataType = "text".toList
  all_goals try (rw [if_pos h8] at h; cases h; rfl)
  rw [if_neg h8] at h
  by_cases h9 : row.dataType = "character".toList ∨ row.dataType = "character varying".toList
  all_goals try (rw [if_pos h9] at h; cases h; cases row.charMaxLen <;> rfl)
  rw [if_neg h9] at h
  by_cases h10 : row.dataType = "date".toList ∨ row.dataType = "time".toList ∨
    row.dataType = "timestamp".toList ∨ row.dataType = "timestamp with time zone".toList ∨
    row.dataType = "timestamp without time zone".toList
  all_goals try (rw [if_pos h10] at h; cases h; rfl)
  rw [if_neg h10] at h
  by_cases h11 : row.dataType = "bytea".toList
  all_goals try (rw [if_pos h11] at h; cases h; rfl)
  rw [if_neg h11] at h
  by_cases h12 : row.dataType = "jsonb".toList
  all_goals try (rw [if_pos h12] at h; cases h; rfl)
  rw [if_neg h12] at h
  by_cases h13 : row.dataType = "uuid".toList
  all_goals try (rw [if_pos h13] at h; cases h; rfl)
  rw [if_neg h13] at h
  by_cases h14 : row.dataType = "cidr".toList ∨ row.dataType = "inet".toList ∨
    row.dataType = "macaddr".toList ∨ row.dataType = "macaddr8".toList
  all_goals try (rw [if_pos h14] at h; cases h; rfl)
  rw [if_neg h14] at h
  by_cases h15 : row.dataType = "ARRAY".toList
  all_goals try (rw [if_pos h15] at h; revert h; cases row.udtName <;> (intro h; cases h; try rfl))
  rw [if_neg h15] at h
  by_cases h16 : row.dataType = "USER-DEFINED".toList ∨ row.dataType = "tstzrange".toList ∨
    row.dataType = "interval".toList
  all_goals try (rw [if_pos h16] at h; revert h; cases row.udtName <;> (intro h; cases h; try rfl))
  rw [if_neg h16] at h
  cases h
  rfl

theorem scanColumn_callExpr_default {row : ColRow} {d : Str} {c : Column}
    (hdef : row.columnDefault = some d) (hcall : callExpr d = true)
    (hscan : scanColumn row = .ok c) : c.default = none := by
  simp only [scanColumn] at hscan
  cases hsct : scanColumnType row
      { name := row.columnName, typ := row.dataType, type := .invalid,
        nullable := decide (row.isNullable = some "YES".toList),
        size := 0, schemaType := none, default := none } with
  | error e => simp only [hsct] at hscan; cases hscan
  | ok c1 =>
    simp only [hsct, hdef] at hscan
    rw [if_pos (Or.inr hcall)] at hscan
    cases hscan
    exact scanColumnType_default hsct

/-- C8 amended: `callExpr` returns true exactly for strings that — after
replacing the string with its segment before the first `::` when the whole
string does not end in `)` but that segment does — consist of a *possibly
empty* run of identifier characters followed by `(` and a final `)` closing
the string; and `scanColumn` leaves the column's `Default` unset for any
default value `callExpr` accepts. -/
theorem c8_callexpr :
    (∀ s : Str, callExpr s = true ↔ looseCallShape (castAdjust s)) ∧
    (∀ (row : ColRow) (d : Str) (c : Column), row.columnDefault = some d →
      callExpr d = true → scanColumn row = .ok c → c.default = none) := by
  constructor
  · intro s
    exact coreCheck_iff false (castAdjust s)
  · intro row d c hdef hcall hscan
    exact scanColumn_callExpr_default hdef hcall hscan

/-- C8 witness. -/
theorem c8_callexpr_witness :
    callExpr "now()".toList = true ∧ nowCol.default = none := by
  constructor
  · exact (c8_callexpr.1 "now()".toList).mpr ⟨"now".toList, [], by decide, by decide⟩
  · exact c8_callexpr.2 nowRow "nextval('users_id_seq'::regclass)".toList nowCol rfl
      (by decide) rfl

theorem splitCh_ne_nil (sep : Char) (l : Str) : splitCh sep l ≠ [] := by
  cases l with
  | nil => simp [splitCh]
  | cons c cs =>
    simp only [splitCh]
    cases splitCh sep cs with
    | nil => simp
    | cons p ps => by_cases hcs : c = sep <;> simp [hcs]

theorem splitCh_append (sep : Char) (a rest : Str) (h : ∀ c ∈ a, c ≠ sep) :
    splitCh sep (a ++ sep :: rest) = a :: splitCh sep rest := by
  induction a with
  | nil =>
    simp only [List.nil_append, splitCh]
    cases hs : splitCh sep rest with
    | nil => exact absurd hs (splitCh_ne_nil sep rest)
    | cons p ps => simp
  | cons x a' ih =>
    have hx : x ≠ sep := h x (List.mem_cons_self _ _)
    have h' : ∀ c ∈ a', c ≠ sep := fun c hc => h c (List.mem_cons_of_mem _ hc)
    simp only [List.cons_append, splitCh, List.append_eq, ih h', if_neg hx]

theorem splitCh_single (sep : Char) (l : Str) (h : ∀ c ∈ l, c ≠ sep) :
    splitCh sep l = [l] := by
  induction l with
  | nil => rfl
  | cons x xs ih =>
    have hx : x ≠ sep := h x (List.mem_cons_self _ _)
    have h' : ∀ c ∈ xs, c ≠ sep := fun c hc => h c (List.mem_cons_of_mem _ hc)
    simp only [splitCh, ih h', if_neg hx]

theorem parseDigits_digits {l : Str} (h1 : l ≠ []) (h2 : ∀ c ∈ l, c.isDigit = true) :
    parseDigits l = some (digitsToNat l) := by
  unfold parseDigits
  rw [if_pos ⟨h1, List.all_eq_true.2 h2⟩]

/-- C6: `init` parses the server-reported numeric version string: an absent
row is an error, a string shorter than 6 characters is a malformed-version
error, and an all-digit string of length at least 6 yields the three-part
version `s[:2].s[2:4].s[4:]`, which fails with the explicit
unsupported-version error exactly when it compares below the floor
`10.0.0`, and succeeds (storing that version) otherwise. -/
theorem c6_init_version :
    initCheck none = .error .notFound ∧
    ∀ s : Str,
      (s.length < 6 → initCheck (some s) = .error (.malformed s)) ∧
      (6 ≤ s.length → (∀ ch ∈ s, ch.isDigit = true) →
        ((initCheck (some s) = .error (.unsupported (fmtVersion s)) ↔
            cmpTriple (digitsToNat (s.take 2), digitsToNat ((s.drop 2).take 2),
              digitsToNat (s.drop 4)) (10, 0, 0) = -1) ∧
         (initCheck (some s) = .ok (fmtVersion s) ↔
            ¬ cmpTriple (digitsToNat (s.take 2), digitsToNat ((s.drop 2).take 2),
              digitsToNat (s.drop 4)) (10, 0, 0) = -1))) := by
  constructor
  · rfl
  · intro s
    constructor
    · intro hlen
      simp only [initCheck]
      rw [if_pos hlen]
    · intro hlen hdig
      have hne : ∀ ch ∈ s, ch ≠ '.' := by
        intro ch hch heq
        have hd := hdig ch hch
        rw [heq] at hd
        exact absurd hd (by decide)
      have h1ne : ∀ ch ∈ s.take 2, ch ≠ '.' :=
        fun ch hc => hne ch (List.take_subset _ _ hc)
      have h2ne : ∀ ch ∈ (s.drop 2).take 2, ch ≠ '.' :=
        fun ch hc => hne ch (List.drop_subset _ _ (List.take_subset _ _ hc))
      have h3ne : ∀ ch ∈ s.drop 4, ch ≠ '.' :=
        fun ch hc => hne ch (List.drop_subset _ _ hc)
      have hshape : fmtVersion s =
          s.take 2 ++ '.' :: ((s.drop 2).take 2 ++ '.' :: s.drop 4) := by
        unfold fmtVersion
        simp [List.cons_append, List.append_assoc]
      have hsplit : splitCh '.' (fmtVersion s) =
          [s.take 2, (s.drop 2).take 2, s.drop 4] := by
        rw [hshape, splitCh_append _ _ _ h1ne, splitCh_append _ _ _ h2ne,
          splitCh_single _ _ h3ne]
      have hl1 : s.take 2 ≠ [] := by
        have hlt : (s.take 2).length = 2 := by rw [List.length_take]; omega
        intro he
        rw [he] at hlt
        simp at hlt
      have hl2 : (s.drop 2).take 2 ≠ [] := by
        have hlt : ((s.drop 2).take 2).length = 2 := by
          rw [List.length_take, List.length_drop]; omega
        intro he
        rw [he] at hlt
        simp at hlt
      have hl3 : s.drop 4 ≠ [] := by
        have hlt : (s.drop 4).length = s.length - 4 := by rw [List.length_drop]
        intro he
        rw [he] at hlt
        simp at hlt
        omega
      have hd1 : ∀ ch ∈ s.take 2, ch.isDigit = true :=
        fun ch hc => hdig ch (List.take_subset _ _ hc)
      have hd2 : ∀ ch ∈ (s.drop 2).take 2, ch.isDigit = true :=
        fun ch hc => hdig ch (List.drop_subset _ _ (List.take_subset _ _ hc))
      have hd3 : ∀ ch ∈ s.drop 4, ch.isDigit = true :=
        fun ch hc => hdig ch (List.drop_subset _ _ hc)
      have hparse : parseVersionM (fmtVersion s) =
          some (digitsToNat (s.take 2), digitsToNat ((s.drop 2).take 2),
            digitsToNat (s.drop 4)) := by
        simp only [parseVersionM, hsplit, List.get?_cons_zero, List.get?_cons_succ,
          parseDigits_digits hl1 hd1, parseDigits_digits hl2 hd2,
          parseDigits_digits hl3 hd3]
      have hfloor : parseVersionM "10.0.0".toList = some (10, 0, 0) := by decide
      have hcmp : compareVersionsM (fmtVersion s) "10.0.0".toList =
          cmpTriple (digitsToNat (s.take 2), digitsToNat ((s.drop 2).take 2),
            digitsToNat (s.drop 4)) (10, 0, 0) := by
        unfold compareVersionsM
        rw [hparse, hfloor]
      simp only [initCheck]
      rw [if_neg (show ¬ s.length < 6 by omega), hcmp]
      by_cases hlt : cmpTriple (digitsToNat (s.take 2), digitsToNat ((s.drop 2).take 2),
          digitsToNat (s.drop 4)) (10, 0, 0) = -1
      · rw [if_pos hlt]
        exact ⟨⟨fun _ => hlt, fun _ => rfl⟩,
               ⟨fun he => Except.noConfusion he, fun hn => absurd hlt hn⟩⟩
      · rw [if_neg hlt]
        exact ⟨⟨fun he => Except.noConfusion he, fun hl => absurd hl hlt⟩,
               ⟨fun _ => hlt, fun _ => rfl⟩⟩

/-- C6 witness. -/
theorem c6_init_version_witness :
    initCheck (some "090624".toList) = .error (.unsupported (fmtVersion "090624".toList)) ∧
    initCheck (some "100005".toList) = .ok (fmtVersion "100005".toList) := by
  have h1 := ((c6_init_version.2 "090624".toList).2 (by decide) (by decide)).1
  have h2 := ((c6_init_version.2 "100005".toList).2 (by decide) (by decide)).2
  exact ⟨h1.mpr (by decide), h2.mpr (by decide)⟩

/-- C1 witness. -/
theorem c1_type_roundtrip_witness :
    roundTripType (targetColumn "flag".toList .bool) = some .bool :=
  (c1_type_roundtrip "flag".toList).1

/-- C5 witness. -/
theorem c5_addindex_name_witness :
    addIndexName "users".toList nameIdx = "users".toList ++ '_' :: nameIdx.name :=
  (c5_addindex_name nameIdx "users".toList).mpr (by decide)

/-- C10 witness. -/
theorem c10_ctype_totality_witness :
    (cType (targetColumn "flag".toList .bool)).isSome = true :=
  (c10_ctype_totality.1 (targetColumn "flag".toList .bool)).mpr (Or.inl (by decide))

end Ent
